import Mathlib

/-!
Verification of the postcard-bindgen core code generators.

The repository (`postcard-bindgen-core`) turns a registry of container
descriptions (structs, tuple structs, unit structs, tagged enums) into
JavaScript source code that serializes values of those shapes into the
postcard wire format and parses them back.

This file gives a shallow embedding of that pipeline:

* the registry data model is translated from `src/postcard-bindgen-core/src/registry.rs`;
* the meaning of the JavaScript emitted by the serializer generator
  (`src/postcard-bindgen-core/src/code_gen/ser_des/ser.rs` together with the
  assembly in `src/postcard-bindgen-core/src/code_gen/mod.rs`) is embedded as
  executable Lean functions that compute exactly the bytes the generated code
  writes and the error behaviour of the generated dispatch;
* the pieces of the repository that are not part of the given sources (the
  primitive `Serializer`/`Deserializer` runtime, the decoder generator, the
  shape-validator generator, and the `to_obj_identifier` helper) are modelled
  from the specification; each such definition says so in its doc comment.

JavaScript values are modelled by the inductive `JsValue`; JavaScript objects
are association lists with distinct keys (a JS object cannot carry the same
key twice), JavaScript numbers restricted to the integral values the bindings
traffic in are modelled by `Int`, and JavaScript strings are modelled by
their UTF-8 byte sequences.
-/

/-- The value-type taxonomy consumed by the generators.  Mirrors the `JsType`
enum used throughout `code_gen/ser_des/ser.rs` (its defining module
`type_info` is outside the given sources; the constructors and the metadata
they carry — byte width and signedness for numbers, the item type for
arrays, the referenced container name for objects, the inner type for
optionals — are exactly the ones matched on in `gen_accessor`,
ser.rs lines 62-75). -/
inductive JsType where
  | number (byteWidth : Nat) (signed : Bool)
  | string
  | array (itemsType : JsType)
  | object (name : String)
  | optional (inner : JsType)
deriving DecidableEq, Repr

/-- A named struct field, from `registry.rs` (`StructField { name, v_type }`). -/
structure StructField where
  name : String
  v_type : JsType
deriving DecidableEq, Repr

/-- Payload shape of an enum variant, from `registry.rs`
(`EnumVariantType::{Empty, Tuple, NewType}`). -/
inductive EnumVariantType where
  | Empty
  | Tuple (fields : List JsType)
  | NewType (fields : List StructField)
deriving DecidableEq, Repr

/-- An enum variant, from `registry.rs`
(`EnumVariant { index, name, inner_type }`). -/
structure EnumVariant where
  index : Nat
  name : String
  inner_type : EnumVariantType
deriving DecidableEq, Repr

/-- A container shape, from `registry.rs` (`BindingType`).  The container
name travels next to the shape (in the source it is recovered through
`BindingType::inner_name`). -/
inductive BindingType where
  | Struct (fields : List StructField)
  | TupleStruct (fields : List JsType)
  | UnitStruct
  | Enum (variants : List EnumVariant)
deriving DecidableEq, Repr

/-- A registered container: a name together with its shape, from
`registry.rs` (`Container`; the `path` field plays no role in the claims and
is omitted). -/
structure Container where
  name : String
  shape : BindingType
deriving DecidableEq, Repr

/-- A registry snapshot: the ordered list of registered containers, from
`registry.rs` (`BindingsRegistry(Vec<Container>)`). -/
abbrev Registry := List Container

/-- The JavaScript values the generated code operates on.
`obj` models a JS object as an association list (keys are unique in a real
JS object); `arr` models a JS array; `undefined` is JavaScript `undefined`;
`variant` models the `{ tag, value }` objects the bindings use for enum
values (`JS_ENUM_VARIANT_KEY = "tag"`, `JS_ENUM_VARIANT_VALUE = "value"`,
`code_gen/mod.rs` lines 18-19); a variant with no payload has no `value`
entry, modelled as `none`.  Strings carry their UTF-8 bytes. -/
inductive JsValue where
  | num (n : Int)
  | str (bytes : List Nat)
  | arr (items : List JsValue)
  | obj (fields : List (String × JsValue))
  | undefined
  | variant (tag : String) (payload : Option JsValue)

/-- First (and in a real JS object: only) entry stored under `name` in an
object's association list. -/
def lookupField : List (String × JsValue) → String → Option JsValue
  | [], _ => none
  | (n, w) :: rest, name => if n = name then some w else lookupField rest name

/-- Property access `v.name` on a JS value: on an object, the entry stored
under `name` (JS objects hold at most one entry per key); on anything else
the accesses the generated code performs yield `undefined`. -/
def getFieldV (v : JsValue) (name : String) : JsValue :=
  match v with
  | .obj fields => (lookupField fields name).getD .undefined
  | _ => .undefined

/-- Index access `v[i]` on a JS value: on an array, the `i`-th element;
out-of-range indexing and indexing a non-array yield `undefined`. -/
def getIndexV (v : JsValue) (i : Nat) : JsValue :=
  match v with
  | .arr items => items.getD i .undefined
  | _ => .undefined

/-- Access `v.tag` on a JS value, as the generated per-enum serializer's
`switch (v.tag)` does (ser.rs line 249): the tag of a variant object,
`undefined` (here `none`) otherwise. -/
def getTagV : JsValue → Option String
  | .variant tag _ => some tag
  | _ => none

/-- Access `v.value` on a JS value, the enum payload access generated by
`InnerTypeAccess::EnumInner` (ser.rs lines 40-48). -/
def getValueV : JsValue → JsValue
  | .variant _ (some payload) => payload
  | _ => .undefined

/-!
## Primitive wire runtime

The generated code calls into a hand-written JavaScript `Serializer` /
`Deserializer` runtime (`gen_ser_des_classes`).  That runtime is not among
the given sources, so the definitions below are modelled from the
specification's wire-format rules (spec section 4.2).
-/

/-- Fuel-indexed unsigned-varint worker (the fuel only forces structural
termination; `varint` below supplies enough for any input). -/
def varintF : Nat → Nat → List Nat
  | 0, _ => []
  | fuel + 1, n => if n < 128 then [n] else (n % 128 + 128) :: varintF fuel (n / 128)

/-- Modelled from the spec: the continuation-bit unsigned varint encoding of
the wire format (spec section 4.2) — the value is split into 7-bit groups,
least-significant group first, every byte but the last carrying the high
bit.  This is the byte sequence the runtime's `serialize_number` writes for
an unsigned value. -/
def varint (n : Nat) : List Nat :=
  varintF (n + 1) n

/-- Modelled from the spec: reading one unsigned varint off the front of a
byte sequence, returning the value and the unconsumed tail, or `none` when
the bytes run out mid-varint (spec sections 4.2 and 4.4). -/
def devarint : List Nat → Option (Nat × List Nat)
  | [] => none
  | b :: rest =>
    if b < 128 then some (b, rest)
    else
      match devarint rest with
      | some (m, r) => some (b - 128 + 128 * m, r)
      | none => none

/-- Modelled from the spec: the zigzag map from a signed value to the
unsigned value that gets varint-encoded (spec section 4.2: "map to unsigned
so small magnitudes stay small"; this is the value of
`(n << 1) ^ (n >> (width*8-1))` on an in-range `width`-byte two's-complement
value, stated arithmetically). -/
def zigzag (n : Int) : Nat :=
  if 0 ≤ n then (2 * n).toNat else (-2 * n - 1).toNat

/-- Modelled from the spec: the inverse zigzag transform applied by the
decoder to a signed number (spec section 4.4). -/
def unzigzag (m : Nat) : Int :=
  if m % 2 = 0 then (m / 2 : Nat) else -((m / 2 : Nat) : Int) - 1

/-- Modelled from the spec: the bytes `serialize_number(byteWidth, signed, n)`
appends — signed values are zigzag-mapped first, then varint-encoded; the
width itself is never wire-encoded (spec section 4.2). -/
def serNumber (signed : Bool) (n : Int) : List Nat :=
  if signed then varint (zigzag n) else varint n.toNat

/-- Modelled from the spec: the bytes `serialize_string` appends — a varint
byte-count followed by the raw UTF-8 bytes (spec section 4.2; the same rule
covers byte sequences). -/
def serString (bytes : List Nat) : List Nat :=
  varint bytes.length ++ bytes

/-!
## Serializer generator semantics

`gen_serialize_func`, `gen_ser_case`, `gen_accessor*` and the per-shape
`gen_function`s in `code_gen/ser_des/ser.rs` emit JavaScript whose runtime
behaviour the functions below compute: each returns the bytes the generated
statements append to the `Serializer`, with `none` meaning the model cannot
assign the generated code a wire meaning (a primitive write applied to a
value of the wrong JS shape, or out of fuel at a container reference).
-/

/-- Runs an element serializer over a list in order, collecting the byte
chunks each element appends; mirrors the statement chains built with
`semicolon_chain` in `gen_accessors_tuple` / `gen_accessors_struct`
(ser.rs lines 143-164). -/
def serList (sv : α → Option (List Nat)) : List α → Option (List (List Nat))
  | [] => some []
  | x :: xs =>
    match sv x, serList sv xs with
    | some b, some bs => some (b :: bs)
    | _, _ => none

/-- Bytes of a generated struct body: one accessor per declared field, in
declared order, each reading `v.<field name>` (`gen_accessors_struct`,
ser.rs lines 153-164, with `FieldAccessor::Object(field.name)`). -/
def serStructFieldsWith (sv : JsType → JsValue → Option (List Nat))
    (fields : List StructField) (v : JsValue) : Option (List Nat) :=
  (serList (fun fl => sv fl.v_type (getFieldV v fl.name)) fields).map List.flatten

/-- Bytes of a generated tuple body: one accessor per positional field, in
declared order, the `i`-th reading `v[i]` (`gen_accessors_tuple`,
ser.rs lines 143-151, with `FieldAccessor::Array(index)` from `enumerate`). -/
def serTupleFieldsWith (sv : JsType → JsValue → Option (List Nat))
    (fields : List JsType) (v : JsValue) : Option (List Nat) :=
  (serList (fun p => sv p.2 (getIndexV v p.1)) fields.enum).map List.flatten

/-- Bytes of one generated per-enum `case`: the `switch (v.tag)` case for the
variant at position `index` writes `serialize_number(U32_BYTES, false, index)`
and then the payload accessors — none for `Empty`, positional accessors on
`v.value` for `Tuple`, by-name accessors on `v.value` for `NewType`
(`gen_case_for_variant`, ser.rs lines 272-285). -/
def serVariantCaseWith (sv : JsType → JsValue → Option (List Nat))
    (index : Nat) (variant : EnumVariant) (v : JsValue) : Option (List Nat) :=
  match variant.inner_type with
  | .Empty => some (varint index)
  | .Tuple fields =>
    (serTupleFieldsWith sv fields (getValueV v)).map (varint index ++ ·)
  | .NewType fields =>
    (serStructFieldsWith sv fields (getValueV v)).map (varint index ++ ·)

/-- The generated per-enum `switch (v.tag)`: the cases appear in variant
order, labelled by variant name, so the first variant whose name equals the
tag runs (`enum_ty::gen_function`, ser.rs lines 241-254).  Returns the
matched variant's position and definition. -/
def findVariantAux : List EnumVariant → String → Nat → Option (Nat × EnumVariant)
  | [], _, _ => none
  | variant :: rest, tag, i =>
    if variant.name = tag then some (i, variant) else findVariantAux rest tag (i + 1)

/-- First variant whose name matches a tag, with its position (the case the
generated `switch (v.tag)` runs). -/
def findVariant (variants : List EnumVariant) (tag : String) : Option (Nat × EnumVariant) :=
  findVariantAux variants tag 0

/-- Bytes appended by a generated per-container serialize function
(`serialize_<NAME>(s, v)`), one case per container shape:
* `strukt::gen_function` (ser.rs lines 200-206): the struct accessor chain;
* `tuple_struct::gen_function` (ser.rs lines 216-222): the tuple accessor
  chain;
* a unit struct has no fields and its generated body writes nothing
  (spec section 4.2: zero bytes);
* `enum_ty::gen_function` (ser.rs lines 241-254): `switch (v.tag)` over the
  variant cases; when no case matches, the switch has no default branch and
  the function returns having written nothing. -/
def serShapeWith (sv : JsType → JsValue → Option (List Nat)) :
    BindingType → JsValue → Option (List Nat)
  | .Struct fields, v => serStructFieldsWith sv fields v
  | .TupleStruct fields, v => serTupleFieldsWith sv fields v
  | .UnitStruct, _ => some []
  | .Enum variants, v =>
    match getTagV v with
    | none => some []
    | some tag =>
      match findVariant variants tag with
      | none => some []
      | some (i, variant) => serVariantCaseWith sv i variant v

/-- First registered container with a given name — the case the generated
dispatch `switch (type)` runs (`gen_ser_cases` emits one case per container,
in registry order, labelled by the container's name, ser.rs lines 182-191). -/
def findContainer : Registry → String → Option Container
  | [], _ => none
  | c :: rest, name => if c.name = name then some c else findContainer rest name

/-- Bytes appended by one generated accessor for a value of type `ty`
(`gen_accessor`, ser.rs lines 62-75), with the value already fetched:
* numbers: `s.serialize_number(width, signed, v)` (`gen_accessor_number`);
* strings: `s.serialize_string(v)` (`gen_accessor_simple`);
* arrays: `s.serialize_array((s, v) => <item accessor>, v)` — a varint item
  count then each item's bytes (`gen_accessor_array`; the length header is
  the runtime's, spec section 4.2);
* objects: a call to the referenced container's generated function
  (`gen_accessor_object`);
* optionals: `if (v !== undefined) { flag 1; inner } else { flag 0 }`
  (`gen_accessor_optional`, ser.rs lines 77-84).
The fuel bounds the depth of container-to-container calls; every claim
quantifies over it or fixes a concrete sufficient value. -/
def serValue : Nat → Registry → JsType → JsValue → Option (List Nat)
  | 0 => fun _ _ _ => none
  | fuel + 1 => fun reg ty v =>
    match ty with
    | .number _ signed =>
      match v with
      | .num n => some (serNumber signed n)
      | _ => none
    | .string =>
      match v with
      | .str bytes => some (serString bytes)
      | _ => none
    | .array itemsType =>
      match v with
      | .arr items =>
        (serList (fun x => serValue fuel reg itemsType x) items).map
          (fun chunks => varint items.length ++ chunks.flatten)
      | _ => none
    | .object name =>
      match findContainer reg name with
      | some c => serShapeWith (fun t x => serValue fuel reg t x) c.shape v
      | none => none
    | .optional inner =>
      match v with
      | .undefined => some (varint 0)
      | _ => (serValue fuel reg inner v).map (varint 1 ++ ·)

/-!
## Shape-validator semantics

`generate_js` (mod.rs line 30) emits the validator definitions
(`gen_type_checkings`, one `is_<NAME>` predicate per container) only when
`js_type_checks` is enabled.  The `type_checking` module is outside the
given sources, so the predicate meaning below is modelled from the
specification (spec section 4.5): per-field conformance for structs and
tuple structs, a recognized tag with a conforming payload for enums,
optional absence or inner conformance, elementwise conformance for arrays,
and numeric-ness (here: integral and in the declared range) for numbers.
-/

/-- Whether an integral value fits the declared width and signedness.  The
spec leaves range checks implementation-defined (spec section 4.5); the
model checks them, which is the stricter reading and the one under which a
value can be encoded faithfully at that width. -/
def inRange (byteWidth : Nat) (signed : Bool) (n : Int) : Bool :=
  if signed then
    decide (-(2 ^ (8 * byteWidth - 1) : Int) ≤ n ∧ n < (2 ^ (8 * byteWidth - 1) : Int))
  else
    decide (0 ≤ n ∧ n < (2 ^ (8 * byteWidth) : Int))

/-- Conformance of an object's entries to a declared field list: exactly the
declared names, in declared order, each value conforming to its declared
type. -/
def conformsFieldsWith (cb : JsType → JsValue → Bool) :
    List StructField → List (String × JsValue) → Bool
  | [], [] => true
  | fl :: fls, (n, w) :: rest =>
    (n = fl.name : Bool) && cb fl.v_type w && conformsFieldsWith cb fls rest
  | _, _ => false

/-- Conformance of an array's elements to a positional field list: same
length, elementwise conformance. -/
def conformsTupleWith (cb : JsType → JsValue → Bool) :
    List JsType → List JsValue → Bool
  | [], [] => true
  | t :: ts, x :: xs => cb t x && conformsTupleWith cb ts xs
  | _, _ => false

/-- Modelled from the spec: the per-container predicate `is_<NAME>(value)`
(spec section 4.5), parameterized by the value-level check. -/
def conformsShapeWith (cb : JsType → JsValue → Bool) :
    BindingType → JsValue → Bool
  | .Struct fields, .obj entries => conformsFieldsWith cb fields entries
  | .Struct _, _ => false
  | .TupleStruct fields, .arr items => conformsTupleWith cb fields items
  | .TupleStruct _, _ => false
  | .UnitStruct, .obj [] => true
  | .UnitStruct, _ => false
  | .Enum variants, .variant tag payload =>
    (match findVariant variants tag with
     | none => false
     | some (_, variant) =>
       match variant.inner_type, payload with
       | .Empty, none => true
       | .Tuple fields, some (.arr items) => conformsTupleWith cb fields items
       | .NewType fields, some (.obj entries) => conformsFieldsWith cb fields entries
       | _, _ => false)
  | .Enum _, _ => false

/-- Modelled from the spec: value-level shape conformance (spec section 4.5),
fuel-indexed in step with `serValue` so the two recursions line up; at fuel
zero nothing conforms. -/
def conformsB : Nat → Registry → JsType → JsValue → Bool
  | 0 => fun _ _ _ => false
  | fuel + 1 => fun reg ty v =>
    match ty with
    | .number byteWidth signed =>
      match v with
      | .num n => inRange byteWidth signed n
      | _ => false
    | .string =>
      match v with
      | .str bytes => bytes.all (· < 256)
      | _ => false
    | .array itemsType =>
      match v with
      | .arr items => items.all (fun x => conformsB fuel reg itemsType x)
      | _ => false
    | .object name =>
      match findContainer reg name with
      | some c => conformsShapeWith (fun t x => conformsB fuel reg t x) c.shape v
      | none => false
    | .optional inner =>
      match v with
      | .undefined => true
      | _ => conformsB fuel reg inner v

/-!
## Decoder generator semantics

The decoder generator (`des.rs`) is outside the given sources; the
definitions below are modelled from the specification (spec section 4.4):
each container decodes field-by-field / variant-by-variant in exactly the
order the encoder wrote, failing with `BufferUnderrun` when bytes run out
and with `InvalidDiscriminant` on an unknown enum index.
-/

/-- Decode-side failures (spec sections 4.4 and 7; `outOfFuel` is the
model's bound on container-to-container recursion depth). -/
inductive DesError where
  | BufferUnderrun
  | InvalidDiscriminant
  | UnknownType
  | outOfFuel
deriving DecidableEq, Repr

/-- Reads `count` consecutive items with an element decoder, returning them
in order with the unconsumed tail. -/
def desItemsWith (dv : List Nat → Except DesError (JsValue × List Nat)) :
    Nat → List Nat → Except DesError (List JsValue × List Nat)
  | 0, input => .ok ([], input)
  | count + 1, input =>
    match dv input with
    | .error e => .error e
    | .ok (x, r) =>
      match desItemsWith dv count r with
      | .error e => .error e
      | .ok (xs, r') => .ok (x :: xs, r')

/-- Decodes the values of a positional field list in declared order. -/
def desTupleWith (dv : JsType → List Nat → Except DesError (JsValue × List Nat)) :
    List JsType → List Nat → Except DesError (List JsValue × List Nat)
  | [], input => .ok ([], input)
  | t :: ts, input =>
    match dv t input with
    | .error e => .error e
    | .ok (x, r) =>
      match desTupleWith dv ts r with
      | .error e => .error e
      | .ok (xs, r') => .ok (x :: xs, r')

/-- Decodes the entries of a named field list in declared order, rebuilding
the object's association list with the declared names. -/
def desFieldsWith (dv : JsType → List Nat → Except DesError (JsValue × List Nat)) :
    List StructField → List Nat → Except DesError (List (String × JsValue) × List Nat)
  | [], input => .ok ([], input)
  | fl :: fls, input =>
    match dv fl.v_type input with
    | .error e => .error e
    | .ok (x, r) =>
      match desFieldsWith dv fls r with
      | .error e => .error e
      | .ok (xs, r') => .ok ((fl.name, x) :: xs, r')

/-- Modelled from the spec: the generated per-container decode function
(spec section 4.4) — structs rebuild an object from the declared fields,
tuple structs an array, a unit struct decodes no bytes and yields the empty
object, and an enum reads the index varint, fails with
`InvalidDiscriminant` when it matches no variant, then decodes that
variant's payload shape. -/
def desShapeWith (dv : JsType → List Nat → Except DesError (JsValue × List Nat)) :
    BindingType → List Nat → Except DesError (JsValue × List Nat)
  | .Struct fields, input =>
    (desFieldsWith dv fields input).map (fun (entries, r) => (.obj entries, r))
  | .TupleStruct fields, input =>
    (desTupleWith dv fields input).map (fun (items, r) => (.arr items, r))
  | .UnitStruct, input => .ok (.obj [], input)
  | .Enum variants, input =>
    match devarint input with
    | none => .error .BufferUnderrun
    | some (i, r) =>
      match variants.get? i with
      | none => .error .InvalidDiscriminant
      | some variant =>
        match variant.inner_type with
        | .Empty => .ok (.variant variant.name none, r)
        | .Tuple fields =>
          (desTupleWith dv fields r).map
            (fun (items, r') => (.variant variant.name (some (.arr items)), r'))
        | .NewType fields =>
          (desFieldsWith dv fields r).map
            (fun (entries, r') => (.variant variant.name (some (.obj entries)), r'))

/-- Modelled from the spec: the generated value decoder (spec sections 4.2
and 4.4) — numbers read a varint (inverse-zigzag for signed), strings a
length varint then that many raw bytes (`BufferUnderrun` when fewer
remain), arrays a count varint then that many items, object references the
referenced container's decode function, optionals a presence varint (`0`
absent, `1` present).  Fuel-indexed in step with `serValue`. -/
def desValue : Nat → Registry → JsType → List Nat → Except DesError (JsValue × List Nat)
  | 0 => fun _ _ _ => .error .outOfFuel
  | fuel + 1 => fun reg ty input =>
    match ty with
    | .number _ signed =>
      match devarint input with
      | none => .error .BufferUnderrun
      | some (m, r) => .ok (.num (if signed then unzigzag m else (m : Int)), r)
    | .string =>
      match devarint input with
      | none => .error .BufferUnderrun
      | some (len, r) =>
        if len ≤ r.length then .ok (.str (r.take len), r.drop len)
        else .error .BufferUnderrun
    | .array itemsType =>
      match devarint input with
      | none => .error .BufferUnderrun
      | some (count, r) =>
        (desItemsWith (fun bs => desValue fuel reg itemsType bs) count r).map
          (fun (items, r') => (.arr items, r'))
    | .object name =>
      match findContainer reg name with
      | some c => desShapeWith (fun t bs => desValue fuel reg t bs) c.shape input
      | none => .error .UnknownType
    | .optional inner =>
      match devarint input with
      | none => .error .BufferUnderrun
      | some (0, r) => .ok (.undefined, r)
      | some (1, r) => desValue fuel reg inner r
      | some (_, _) => .error .InvalidDiscriminant

/-!
## Dispatch semantics

`gen_serialize_func` (ser.rs lines 166-180) emits

```text
module.exports.serialize = (type, value) => {
    if (!(typeof type === "string")) { throw "type must be a string" }
    const s = new Serializer()
    switch (type) { <one case per container> }
    return s.finish()
}
```

and `gen_ser_case` (ser.rs lines 186-191) emits for each container

```text
case "<name>": if (is_<NAME>(value)) \x7b serialize_<NAME>(s, value) \x7d
               else throw "value has wrong format"; break
```

Two structural facts drive the semantics below:
* the `switch (type)` has no `default` branch, so an unmatched name falls
  through and the function returns `s.finish()` — the empty byte sequence;
* the `is_<NAME>` call is emitted unconditionally, while `generate_js`
  (mod.rs line 30) emits the `is_<NAME>` definitions only when
  `js_type_checks` is enabled, so with checks disabled every matched case
  calls an undefined function and the dispatch throws a `ReferenceError`.
-/

/-- The first argument of the generated dispatch: either a JS string or any
non-string JS value (which the `typeof` guard rejects). -/
inductive DispatchKey where
  | str (name : String)
  | notAString
deriving DecidableEq, Repr

/-- Serialize-side failures (spec section 7): `MalformedTypeKey` is the
`typeof` throw, `ShapeMismatch` the validator throw, `validatorUndefined`
the `ReferenceError` raised when a case calls an `is_<NAME>` that was never
emitted, and `stuck` marks behaviour outside the model (a primitive write
on a value of the wrong JS shape, or model fuel exhausted). -/
inductive SerError where
  | MalformedTypeKey
  | ShapeMismatch
  | validatorUndefined
  | stuck
deriving DecidableEq, Repr

/-- Runtime behaviour of the generated `serialize(type, value)` entry point
(`gen_serialize_func` + `gen_ser_case`, assembled by `generate_js` with the
`js_type_checks` flag). -/
def serializeSem (typeChecks : Bool) (reg : Registry) (fuel : Nat)
    (key : DispatchKey) (value : JsValue) : Except SerError (List Nat) :=
  match key with
  | .notAString => .error .MalformedTypeKey
  | .str name =>
    match findContainer reg name with
    | none => .ok []
    | some c =>
      if typeChecks then
        if conformsShapeWith (fun t x => conformsB fuel reg t x) c.shape value then
          match serShapeWith (fun t x => serValue fuel reg t x) c.shape value with
          | some bytes => .ok bytes
          | none => .error .stuck
        else .error .ShapeMismatch
      else .error .validatorUndefined

/-- Modelled from the spec: the generated `deserialize(type_name, bytes)`
entry point (spec section 4.4; the decoder generator is outside the given
sources) — it fails with `UnknownType` for an unregistered name, otherwise
runs the container's decode function; trailing unconsumed bytes are
tolerated. -/
def deserializeSem (reg : Registry) (fuel : Nat) (name : String)
    (bytes : List Nat) : Except DesError JsValue :=
  match findContainer reg name with
  | none => .error .UnknownType
  | some c =>
    match desShapeWith (fun t bs => desValue fuel reg t bs) c.shape bytes with
    | .ok (v, _) => .ok v
    | .error e => .error e

/-!
## Enum variant registration

From `registry.rs` (`EnumType::{register_variant, register_variant_tuple,
register_unnamed_struct}`, lines 36-59): every registration pushes a variant
whose `index` is the length of the variant list at that moment.
-/

/-- One variant-registration call on an `EnumType` under construction, from
`registry.rs` lines 36-59. -/
inductive EnumOp where
  | registerVariant (name : String)
  | registerVariantTuple (name : String) (fields : List JsType)
  | registerUnnamedStruct (name : String) (fields : List StructField)
deriving DecidableEq, Repr

/-- Effect of one registration call: push a variant with
`index = variants.len()` (registry.rs lines 37-59). -/
def applyEnumOp (variants : List EnumVariant) : EnumOp → List EnumVariant
  | .registerVariant name =>
    variants ++ [{ index := variants.length, name, inner_type := .Empty }]
  | .registerVariantTuple name fields =>
    variants ++ [{ index := variants.length, name, inner_type := .Tuple fields }]
  | .registerUnnamedStruct name fields =>
    variants ++ [{ index := variants.length, name, inner_type := .NewType fields }]

/-- The variant list built by a sequence of registration calls starting from
`EnumType::new()` (empty). -/
def applyEnumOps (ops : List EnumOp) : List EnumVariant :=
  ops.foldl applyEnumOp []

/-!
## Identifier derivation

Every place the generators turn a container name into a JavaScript
identifier goes through `StrExt::to_obj_identifier` (its defining module
`utils` is outside the given sources).  The parallel generator in
`code_gen/ser.rs` line 32 spells the same transform out as
`to_case(Case::Snake).to_uppercase()`, so the transform is modelled as
snake-casing followed by uppercasing.
-/

/-- Modelled from the spec: the deterministic case-transform underlying
`to_obj_identifier` — `convert_case`'s snake conversion (a word boundary
before an uppercase letter that follows a lowercase letter or a digit),
spelled out on the character list. -/
def toSnakeAux : List Char → Bool → List Char
  | [], _ => []
  | c :: rest, prevLowerOrDigit =>
    if c.isUpper then
      (if prevLowerOrDigit then ['_', c.toLower] else [c.toLower])
        ++ toSnakeAux rest false
    else
      c :: toSnakeAux rest (c.isLower || c.isDigit)

/-- Modelled from the spec: `to_case(Case::Snake)` on a container name. -/
def toSnakeCase (s : String) : String :=
  ⟨toSnakeAux s.data false⟩

/-- Modelled from the spec: `StrExt::to_obj_identifier` — the one
deterministic case-transform every generator applies to a container name
(`to_case(Case::Snake).to_uppercase()`, code_gen/ser.rs line 32). -/
def toObjIdentifier (s : String) : String :=
  (toSnakeCase s).toUpper

/-- The `serialize_<NAME>` identifier the dispatch case references
(`gen_ser_case`, ser_des/ser.rs line 190: `serialize_$(type_name)` with
`type_name = name.to_obj_identifier()`). -/
def dispatchSerializeIdent (name : String) : String :=
  "serialize_" ++ toObjIdentifier name

/-- The `is_<NAME>` identifier the dispatch case references
(`gen_ser_case`, ser_des/ser.rs line 190: `is_$(type_name.as_str())`). -/
def dispatchValidatorIdent (name : String) : String :=
  "is_" ++ toObjIdentifier name

/-- The identifier under which a struct's serialize function is defined
(`strukt::gen_function`, ser_des/ser.rs lines 200-206:
`const serialize_$(obj_name_upper)` with
`obj_name_upper = obj_name.to_obj_identifier()`). -/
def structSerializeDefIdent (name : String) : String :=
  "serialize_" ++ toObjIdentifier name

/-- The identifier under which a tuple struct's serialize function is
defined (`tuple_struct::gen_function`, ser_des/ser.rs lines 216-222). -/
def tupleStructSerializeDefIdent (name : String) : String :=
  "serialize_" ++ toObjIdentifier name

/-- The identifier under which an enum's serialize function is defined
(`enum_ty::gen_function`, ser_des/ser.rs lines 241-254). -/
def enumSerializeDefIdent (name : String) : String :=
  "serialize_" ++ toObjIdentifier name

/-- The identifier a nested object reference calls (`gen_accessor_object`,
ser_des/ser.rs lines 134-141: `serialize_$obj_ident` with
`obj_ident = obj_meta.name.to_obj_identifier()`). -/
def objectAccessorCallIdent (name : String) : String :=
  "serialize_" ++ toObjIdentifier name

/-- Modelled from the spec: the identifier under which a container's
validator is defined (`gen_type_checkings`; the `type_checking` module is
outside the given sources, and spec section 6 fixes that the per-container
functions are "named deterministically from the container name, reused
identically across encode/decode/validate"). -/
def validatorDefIdent (name : String) : String :=
  "is_" ++ toObjIdentifier name

/-!
## Registry well-formedness

A JavaScript object cannot carry the same key twice, so a container whose
declared struct fields repeat a name has no faithful JS value model.  The
round-trip theorem therefore assumes the registry's declared field-name
lists are duplicate-free — automatic for registries populated from Rust
types, whose field names are distinct (spec section 3 fixes the analogous
uniqueness invariants for the registry).
-/

/-- No two declared fields share a name. -/
def nodupFieldNames : List StructField → Bool
  | [] => true
  | fl :: fls => fls.all (fun g => decide (g.name ≠ fl.name)) && nodupFieldNames fls

/-- Every named-field list declared by a shape is duplicate-free. -/
def wfShape : BindingType → Bool
  | .Struct fields => nodupFieldNames fields
  | .TupleStruct _ => true
  | .UnitStruct => true
  | .Enum variants =>
    variants.all (fun variant =>
      match variant.inner_type with
      | .NewType fields => nodupFieldNames fields
      | _ => true)

/-- Every container of the registry is well-formed. -/
def wfReg (reg : Registry) : Bool :=
  reg.all (fun c => wfShape c.shape)

/-!
## Wire-primitive lemmas
-/

/-- The varint worker ignores the fuel as soon as it exceeds the value. -/
theorem varintF_eq_succ : ∀ (m k : Nat), m < k → varintF k m = varintF (m + 1) m := by
  intro m
  induction m using Nat.strong_induction_on with
  | _ m ih =>
    intro k hk
    match k, hk with
    | k + 1, _ =>
      simp only [varintF]
      split
      · rfl
      · rename_i h128
        have hdiv : m / 128 < m := Nat.div_lt_self (by omega) (by omega)
        rw [ih (m / 128) hdiv k (by omega), ih (m / 128) hdiv m hdiv]

/-- Recurrence of the unsigned varint encoding: one 7-bit group at a time. -/
theorem varint_unfold (n : Nat) :
    varint n = if n < 128 then [n] else (n % 128 + 128) :: varint (n / 128) := by
  show varintF (n + 1) n = _
  simp only [varintF]
  split
  · rfl
  · rename_i h128
    have hdiv : n / 128 < n := Nat.div_lt_self (by omega) (by omega)
    rw [varintF_eq_succ (n / 128) n hdiv]
    rfl

/-- Reading back an unsigned varint recovers the value and leaves the
trailing bytes untouched. -/
theorem devarint_varint (n : Nat) : ∀ r, devarint (varint n ++ r) = some (n, r) := by
  induction n using Nat.strong_induction_on with
  | _ n ih =>
    intro r
    rw [varint_unfold]
    split
    · rename_i h128
      simp [devarint, h128]
    · rename_i h128
      have hdiv : n / 128 < n := Nat.div_lt_self (by omega) (by omega)
      simp only [List.cons_append, devarint, List.append_eq, ih (n / 128) hdiv r]
      have : ¬ (n % 128 + 128 < 128) := by omega
      rw [if_neg this]
      have : n % 128 + 128 - 128 + 128 * (n / 128) = n := by omega
      rw [this]

/-- The inverse zigzag transform undoes the zigzag map on every integer. -/
theorem unzigzag_zigzag (n : Int) : unzigzag (zigzag n) = n := by
  unfold zigzag unzigzag
  split <;> split <;> omega

/-- A varint is never empty (its first byte exists). -/
theorem varint_ne_nil (n : Nat) : varint n ≠ [] := by
  rw [varint_unfold]
  split <;> simp

/-!
## List-level helper lemmas
-/

/-- `serList` only looks at its serializer on the list's members. -/
theorem serList_congr {α : Type} (f g : α → Option (List Nat)) :
    ∀ xs : List α, (∀ x ∈ xs, f x = g x) → serList f xs = serList g xs := by
  intro xs
  induction xs with
  | nil => intro _; rfl
  | cons x xs ih =>
    intro h
    simp only [serList, h x (by simp), ih (fun y hy => h y (by simp [hy]))]

/-- A conforming tuple value has exactly as many elements as declared. -/
theorem conformsTupleWith_length (cb : JsType → JsValue → Bool) :
    ∀ fields items, conformsTupleWith cb fields items = true →
      items.length = fields.length := by
  intro fields
  induction fields with
  | nil =>
    intro items h
    cases items with
    | nil => rfl
    | cons x xs => simp [conformsTupleWith] at h
  | cons t ts ih =>
    intro items h
    cases items with
    | nil => simp [conformsTupleWith] at h
    | cons x xs =>
      simp only [conformsTupleWith, Bool.and_eq_true] at h
      simp [ih xs h.2]

/-- The positional accessor chain (`v[k]`, `v[k+1]`, …) over an array value
is the element-by-element chain over the zipped lists. -/
theorem serList_enumFrom (sv : JsType → JsValue → Option (List Nat)) :
    ∀ (fields : List JsType) (items : List JsValue) (k : Nat),
      k + fields.length ≤ items.length →
      serList (fun p => sv p.2 (getIndexV (.arr items) p.1)) (List.enumFrom k fields) =
        serList (fun q => sv q.1 q.2) (fields.zip (items.drop k)) := by
  intro fields
  induction fields with
  | nil => intro items k _; rfl
  | cons t ts ih =>
    intro items k h
    have hk : k < items.length := by
      simp only [List.length_cons] at h
      omega
    have hdrop : items.drop k = items[k] :: items.drop (k + 1) :=
      List.drop_eq_getElem_cons hk
    rw [hdrop]
    simp only [List.enumFrom, List.zip_cons_cons, serList]
    have hg : getIndexV (.arr items) k = items[k] := by
      simp [getIndexV, List.getD_eq_getElem?_getD, List.getElem?_eq_getElem hk]
    rw [hg, ih items (k + 1) (by simp only [List.length_cons] at h; omega)]
    rfl

/-- A matched `switch (v.tag)` case names the tag and sits at its reported
position in the variant list. -/
theorem findVariantAux_spec :
    ∀ (variants : List EnumVariant) (tag : String) (k i : Nat) (variant : EnumVariant),
      findVariantAux variants tag k = some (i, variant) →
      variant.name = tag ∧ k ≤ i ∧ variants.get? (i - k) = some variant := by
  intro variants
  induction variants with
  | nil => intro tag k i variant h; simp [findVariantAux] at h
  | cons v vs ih =>
    intro tag k i variant h
    simp only [findVariantAux] at h
    split at h
    · rename_i heq
      simp only [Option.some.injEq, Prod.mk.injEq] at h
      obtain ⟨rfl, rfl⟩ := h
      exact ⟨heq, Nat.le_refl _, by simp⟩
    · obtain ⟨h1, h2, h3⟩ := ih tag (k + 1) i variant h
      refine ⟨h1, by omega, ?_⟩
      have hik : i - k = (i - (k + 1)) + 1 := by omega
      rw [hik]
      simpa using h3

/-- Unpacked form of `findVariantAux_spec` for the exported search. -/
theorem findVariant_spec (variants : List EnumVariant) (tag : String) (i : Nat)
    (variant : EnumVariant) (h : findVariant variants tag = some (i, variant)) :
    variant.name = tag ∧ variants.get? i = some variant := by
  obtain ⟨h1, _, h3⟩ := findVariantAux_spec variants tag 0 i variant h
  exact ⟨h1, by simpa using h3⟩

/-- Containers found in a well-formed registry are well-formed. -/
theorem wfShape_of_findContainer :
    ∀ (reg : Registry), wfReg reg = true →
      ∀ name c, findContainer reg name = some c → wfShape c.shape = true := by
  intro reg
  induction reg with
  | nil => intro _ name c h; simp [findContainer] at h
  | cons c0 rest ih =>
    intro hwf name c h
    simp only [wfReg, List.all_cons, Bool.and_eq_true] at hwf
    simp only [findContainer] at h
    split at h
    · cases h; exact hwf.1
    · exact ih hwf.2 name c h

/-!
## Round-trip lemmas
-/

/-- Elementwise round trip lifts to item lists: the chunks the accessors
append decode back, in order, into the original items. -/
theorem items_round (cbv : JsValue → Bool) (svv : JsValue → Option (List Nat))
    (dvv : List Nat → Except DesError (JsValue × List Nat))
    (H : ∀ x, cbv x = true → ∃ b, svv x = some b ∧ ∀ r, dvv (b ++ r) = .ok (x, r)) :
    ∀ items : List JsValue, items.all cbv = true →
      ∃ chunks, serList svv items = some chunks ∧
        ∀ r, desItemsWith dvv items.length (chunks.flatten ++ r) = .ok (items, r) := by
  intro items
  induction items with
  | nil => intro _; exact ⟨[], rfl, fun _ => rfl⟩
  | cons x xs ih =>
    intro h
    simp only [List.all_cons, Bool.and_eq_true] at h
    obtain ⟨b, hb, hbd⟩ := H x h.1
    obtain ⟨chunks, hc, hcd⟩ := ih h.2
    refine ⟨b :: chunks, ?_, ?_⟩
    · simp [serList, hb, hc]
    · intro r
      simp only [List.length_cons, List.flatten_cons, List.append_assoc, desItemsWith,
        hbd, hcd]

/-- Zip-form round trip for positional field lists. -/
theorem tupleZip_round (cb : JsType → JsValue → Bool)
    (sv : JsType → JsValue → Option (List Nat))
    (dv : JsType → List Nat → Except DesError (JsValue × List Nat))
    (H : ∀ t x, cb t x = true → ∃ b, sv t x = some b ∧ ∀ r, dv t (b ++ r) = .ok (x, r)) :
    ∀ (fields : List JsType) (items : List JsValue),
      conformsTupleWith cb fields items = true →
      ∃ chunks, serList (fun q => sv q.1 q.2) (fields.zip items) = some chunks ∧
        ∀ r, desTupleWith dv fields (chunks.flatten ++ r) = .ok (items, r) := by
  intro fields
  induction fields with
  | nil =>
    intro items h
    cases items with
    | nil => exact ⟨[], rfl, fun _ => rfl⟩
    | cons x xs => simp [conformsTupleWith] at h
  | cons t ts ih =>
    intro items h
    cases items with
    | nil => simp [conformsTupleWith] at h
    | cons x xs =>
      simp only [conformsTupleWith, Bool.and_eq_true] at h
      obtain ⟨b, hb, hbd⟩ := H t x h.1
      obtain ⟨chunks, hc, hcd⟩ := ih xs h.2
      have hc' : serList (fun q => sv q.1 q.2) (List.zipWith Prod.mk ts xs)
          = some chunks := hc
      refine ⟨b :: chunks, ?_, ?_⟩
      · simp [List.zip_cons_cons, serList, hb, hc']
      · intro r
        simp only [List.flatten_cons, List.append_assoc, desTupleWith, hbd, hcd]

/-- Round trip of a generated tuple-struct body: the positional accessors
(`v[0]`, `v[1]`, …) in declared order produce bytes the positional decoder
turns back into the original array. -/
theorem tuple_round (cb : JsType → JsValue → Bool)
    (sv : JsType → JsValue → Option (List Nat))
    (dv : JsType → List Nat → Except DesError (JsValue × List Nat))
    (H : ∀ t x, cb t x = true → ∃ b, sv t x = some b ∧ ∀ r, dv t (b ++ r) = .ok (x, r)) :
    ∀ (fields : List JsType) (items : List JsValue),
      conformsTupleWith cb fields items = true →
      ∃ bs, serTupleFieldsWith sv fields (.arr items) = some bs ∧
        ∀ r, desTupleWith dv fields (bs ++ r) = .ok (items, r) := by
  intro fields items h
  have hlen : items.length = fields.length := conformsTupleWith_length cb fields items h
  obtain ⟨chunks, hc, hcd⟩ := tupleZip_round cb sv dv H fields items h
  refine ⟨chunks.flatten, ?_, hcd⟩
  unfold serTupleFieldsWith
  have hbridge := serList_enumFrom sv fields items 0 (by omega)
  simp only [List.drop_zero] at hbridge
  rw [show fields.enum = List.enumFrom 0 fields from rfl, hbridge, hc]
  rfl

/-- By-name accessors for fields whose names differ from the head entry's
key look their values up past it. -/
theorem serStructFieldsRest (sv : JsType → JsValue → Option (List Nat))
    (n : String) (w : JsValue) (rest : List (String × JsValue)) :
    ∀ fls : List StructField, (∀ g ∈ fls, g.name ≠ n) →
      serList (fun fl => sv fl.v_type (getFieldV (.obj ((n, w) :: rest)) fl.name)) fls =
        serList (fun fl => sv fl.v_type (getFieldV (.obj rest) fl.name)) fls := by
  intro fls hne
  apply serList_congr
  intro g hg
  have hgn : ¬ n = g.name := fun hh => hne g hg hh.symm
  simp [getFieldV, lookupField, hgn]

/-- Round trip of a generated struct body: the by-name accessors in declared
order produce bytes the field decoder turns back into the original entry
list (declared field names must be duplicate-free, as they are for any
registry populated from a host-language struct). -/
theorem struct_round (cb : JsType → JsValue → Bool)
    (sv : JsType → JsValue → Option (List Nat))
    (dv : JsType → List Nat → Except DesError (JsValue × List Nat))
    (H : ∀ t x, cb t x = true → ∃ b, sv t x = some b ∧ ∀ r, dv t (b ++ r) = .ok (x, r)) :
    ∀ (fields : List StructField) (entries : List (String × JsValue)),
      nodupFieldNames fields = true →
      conformsFieldsWith cb fields entries = true →
      ∃ chunks,
        serList (fun fl => sv fl.v_type (getFieldV (.obj entries) fl.name)) fields
          = some chunks ∧
        ∀ r, desFieldsWith dv fields (chunks.flatten ++ r) = .ok (entries, r) := by
  intro fields
  induction fields with
  | nil =>
    intro entries _ h
    cases entries with
    | nil => exact ⟨[], rfl, fun _ => rfl⟩
    | cons e es => simp [conformsFieldsWith] at h
  | cons fl fls ih =>
    intro entries hnd h
    cases entries with
    | nil => simp [conformsFieldsWith] at h
    | cons e es =>
      obtain ⟨n, w⟩ := e
      simp only [conformsFieldsWith, Bool.and_eq_true, decide_eq_true_eq] at h
      obtain ⟨⟨hn, hcw⟩, hrest⟩ := h
      subst hn
      simp only [nodupFieldNames, Bool.and_eq_true, List.all_eq_true,
        decide_eq_true_eq] at hnd
      obtain ⟨hne, hnd'⟩ := hnd
      obtain ⟨b, hb, hbd⟩ := H fl.v_type w hcw
      obtain ⟨chunks, hcs, hcsd⟩ := ih es hnd' hrest
      have hgf : getFieldV (.obj ((fl.name, w) :: es)) fl.name = w := by
        simp [getFieldV, lookupField]
      have htail := serStructFieldsRest sv fl.name w es fls hne
      refine ⟨b :: chunks, ?_, ?_⟩
      · simp only [serList, hgf, hb, htail, hcs]
      · intro r
        simp only [List.flatten_cons, List.append_assoc, desFieldsWith, hbd, hcsd]

/-- Round trip of one generated per-container serialize function against the
container's decode function: a conforming value's bytes decode back to the
value, for every container shape. -/
theorem shape_round (cb : JsType → JsValue → Bool)
    (sv : JsType → JsValue → Option (List Nat))
    (dv : JsType → List Nat → Except DesError (JsValue × List Nat))
    (H : ∀ t x, cb t x = true → ∃ b, sv t x = some b ∧ ∀ r, dv t (b ++ r) = .ok (x, r)) :
    ∀ (shape : BindingType) (v : JsValue), wfShape shape = true →
      conformsShapeWith cb shape v = true →
      ∃ bs, serShapeWith sv shape v = some bs ∧
        ∀ r, desShapeWith dv shape (bs ++ r) = .ok (v, r) := by
  intro shape v hwf hc
  cases shape with
  | Struct fields =>
    cases v with
    | obj entries =>
      obtain ⟨chunks, hcs, hcd⟩ := struct_round cb sv dv H fields entries hwf hc
      refine ⟨chunks.flatten, ?_, ?_⟩
      · simp only [serShapeWith, serStructFieldsWith, hcs]
        rfl
      · intro r
        simp only [desShapeWith, hcd r]
        rfl
    | num n => simp [conformsShapeWith] at hc
    | str bytes => simp [conformsShapeWith] at hc
    | arr items => simp [conformsShapeWith] at hc
    | undefined => simp [conformsShapeWith] at hc
    | variant tag payload => simp [conformsShapeWith] at hc
  | TupleStruct fields =>
    cases v with
    | arr items =>
      obtain ⟨bs, hbs, hbd⟩ := tuple_round cb sv dv H fields items hc
      refine ⟨bs, hbs, ?_⟩
      intro r
      simp only [desShapeWith, hbd r]
      rfl
    | num n => simp [conformsShapeWith] at hc
    | str bytes => simp [conformsShapeWith] at hc
    | obj entries => simp [conformsShapeWith] at hc
    | undefined => simp [conformsShapeWith] at hc
    | variant tag payload => simp [conformsShapeWith] at hc
  | UnitStruct =>
    cases v with
    | obj entries =>
      cases entries with
      | nil => exact ⟨[], rfl, fun _ => rfl⟩
      | cons e es => simp [conformsShapeWith] at hc
    | num n => simp [conformsShapeWith] at hc
    | str bytes => simp [conformsShapeWith] at hc
    | arr items => simp [conformsShapeWith] at hc
    | undefined => simp [conformsShapeWith] at hc
    | variant tag payload => simp [conformsShapeWith] at hc
  | Enum variants =>
    cases v with
    | variant tag payload =>
      simp only [conformsShapeWith] at hc
      cases hfv : findVariant variants tag with
      | none => rw [hfv] at hc; simp at hc
      | some p =>
        obtain ⟨i, var⟩ := p
        rw [hfv] at hc
        dsimp only at hc
        have hc2 := hc
        clear hc
        obtain ⟨hname, hget⟩ := findVariant_spec variants tag i var hfv
        have hmem : var ∈ variants := List.get?_mem hget
        cases hit : var.inner_type with
        | Empty =>
          rw [hit] at hc2
          cases payload with
          | some pv => simp at hc2
          | none =>
            refine ⟨varint i, ?_, ?_⟩
            · simp only [serShapeWith, getTagV, hfv, serVariantCaseWith, hit]
            · intro r
              simp only [desShapeWith, devarint_varint,
                List.get?_eq_getElem?] at hget ⊢
              rw [hget]
              simp only [hit, hname]
        | Tuple fts =>
          rw [hit] at hc2
          cases payload with
          | none => simp at hc2
          | some pv =>
            cases pv with
            | arr items =>
              obtain ⟨tb, htb, htbd⟩ := tuple_round cb sv dv H fts items hc2
              refine ⟨varint i ++ tb, ?_, ?_⟩
              · simp only [serShapeWith, getTagV, hfv, serVariantCaseWith, hit,
                  getValueV, htb]
                rfl
              · intro r
                simp only [desShapeWith, List.append_assoc, devarint_varint,
                  List.get?_eq_getElem?] at hget ⊢
                rw [hget]
                simp only [hit, htbd r, hname]
                rfl
            | num n => simp at hc2
            | str bytes => simp at hc2
            | obj entries => simp at hc2
            | undefined => simp at hc2
            | variant tag' payload' => simp at hc2
        | NewType fls =>
          rw [hit] at hc2
          cases payload with
          | none => simp at hc2
          | some pv =>
            cases pv with
            | obj entries =>
              have hnd : nodupFieldNames fls = true := by
                simp only [wfShape, List.all_eq_true] at hwf
                have := hwf var hmem
                rw [hit] at this
                exact this
              obtain ⟨chunks, hcs, hcsd⟩ := struct_round cb sv dv H fls entries hnd hc2
              refine ⟨varint i ++ chunks.flatten, ?_, ?_⟩
              · simp only [serShapeWith, getTagV, hfv, serVariantCaseWith, hit,
                  getValueV, serStructFieldsWith, hcs]
                rfl
              · intro r
                simp only [desShapeWith, List.append_assoc, devarint_varint,
                  List.get?_eq_getElem?] at hget ⊢
                rw [hget]
                simp only [hit, hcsd r, hname]
                rfl
            | num n => simp at hc2
            | str bytes => simp at hc2
            | arr items => simp at hc2
            | undefined => simp at hc2
            | variant tag' payload' => simp at hc2
    | num n => simp [conformsShapeWith] at hc
    | str bytes => simp [conformsShapeWith] at hc
    | arr items => simp [conformsShapeWith] at hc
    | obj entries => simp [conformsShapeWith] at hc
    | undefined => simp [conformsShapeWith] at hc

/-- Main round-trip invariant: over a well-formed registry, every value that
conforms to a type at some fuel is serialized successfully at that fuel, and
the produced bytes decode back to the value at the same fuel, with any
trailing bytes left untouched. -/
theorem ser_des_round :
    ∀ (fuel : Nat) (reg : Registry), wfReg reg = true →
      ∀ (ty : JsType) (v : JsValue), conformsB fuel reg ty v = true →
        ∃ bs, serValue fuel reg ty v = some bs ∧
          ∀ r, desValue fuel reg ty (bs ++ r) = .ok (v, r) := by
  intro fuel
  induction fuel with
  | zero => intro reg _ ty v hc; simp [conformsB] at hc
  | succ fuel ih =>
    intro reg hwf ty v hc
    cases ty with
    | number byteWidth signed =>
      cases v with
      | num n =>
        simp only [conformsB] at hc
        refine ⟨serNumber signed n, rfl, ?_⟩
        intro r
        cases signed with
        | true =>
          have hs : serNumber true n = varint (zigzag n) := by simp [serNumber]
          rw [hs]
          simp only [desValue, devarint_varint]
          simp [unzigzag_zigzag]
        | false =>
          simp only [inRange] at hc
          rw [if_neg (by simp)] at hc
          rw [decide_eq_true_eq] at hc
          have hs : serNumber false n = varint n.toNat := by simp [serNumber]
          rw [hs]
          simp only [desValue, devarint_varint]
          simp [Int.toNat_of_nonneg hc.1]
      | str bytes => simp [conformsB] at hc
      | arr items => simp [conformsB] at hc
      | obj entries => simp [conformsB] at hc
      | undefined => simp [conformsB] at hc
      | variant tag payload => simp [conformsB] at hc
    | string =>
      cases v with
      | str bytes =>
        refine ⟨serString bytes, rfl, ?_⟩
        intro r
        simp only [serString, desValue, List.append_assoc, devarint_varint]
        rw [if_pos (by simp)]
        simp [List.take_left, List.drop_left]
      | num n => simp [conformsB] at hc
      | arr items => simp [conformsB] at hc
      | obj entries => simp [conformsB] at hc
      | undefined => simp [conformsB] at hc
      | variant tag payload => simp [conformsB] at hc
    | array itemsType =>
      cases v with
      | arr items =>
        simp only [conformsB] at hc
        obtain ⟨chunks, hcs, hcd⟩ :=
          items_round (conformsB fuel reg itemsType)
            (fun x => serValue fuel reg itemsType x)
            (fun bs => desValue fuel reg itemsType bs)
            (fun x hx => ih reg hwf itemsType x hx) items hc
        refine ⟨varint items.length ++ chunks.flatten, ?_, ?_⟩
        · simp only [serValue, hcs]
          rfl
        · intro r
          simp only [desValue, List.append_assoc, devarint_varint, hcd r]
          rfl
      | num n => simp [conformsB] at hc
      | str bytes => simp [conformsB] at hc
      | obj entries => simp [conformsB] at hc
      | undefined => simp [conformsB] at hc
      | variant tag payload => simp [conformsB] at hc
    | object name =>
      simp only [conformsB] at hc
      cases hfc : findContainer reg name with
      | none => rw [hfc] at hc; simp at hc
      | some c =>
        rw [hfc] at hc
        have hwfc := wfShape_of_findContainer reg hwf name c hfc
        obtain ⟨bs, hbs, hbd⟩ :=
          shape_round (fun t x => conformsB fuel reg t x)
            (fun t x => serValue fuel reg t x)
            (fun t bs => desValue fuel reg t bs)
            (fun t x hx => ih reg hwf t x hx) c.shape v hwfc hc
        refine ⟨bs, ?_, ?_⟩
        · simp only [serValue, hfc, hbs]
        · intro r
          simp only [desValue, hfc, hbd r]
    | optional inner =>
      cases v with
      | undefined =>
        refine ⟨varint 0, rfl, ?_⟩
        intro r
        simp only [desValue, devarint_varint]
      | num n =>
        simp only [conformsB] at hc
        obtain ⟨b, hb, hbd⟩ := ih reg hwf inner (.num n) hc
        refine ⟨varint 1 ++ b, ?_, ?_⟩
        · simp only [serValue, hb]
          rfl
        · intro r
          simp only [desValue, List.append_assoc, devarint_varint]
          exact hbd r
      | str bytes =>
        simp only [conformsB] at hc
        obtain ⟨b, hb, hbd⟩ := ih reg hwf inner (.str bytes) hc
        refine ⟨varint 1 ++ b, ?_, ?_⟩
        · simp only [serValue, hb]
          rfl
        · intro r
          simp only [desValue, List.append_assoc, devarint_varint]
          exact hbd r
      | arr items =>
        simp only [conformsB] at hc
        obtain ⟨b, hb, hbd⟩ := ih reg hwf inner (.arr items) hc
        refine ⟨varint 1 ++ b, ?_, ?_⟩
        · simp only [serValue, hb]
          rfl
        · intro r
          simp only [desValue, List.append_assoc, devarint_varint]
          exact hbd r
      | obj entries =>
        simp only [conformsB] at hc
        obtain ⟨b, hb, hbd⟩ := ih reg hwf inner (.obj entries) hc
        refine ⟨varint 1 ++ b, ?_, ?_⟩
        · simp only [serValue, hb]
          rfl
        · intro r
          simp only [desValue, List.append_assoc, devarint_varint]
          exact hbd r
      | variant tag payload =>
        simp only [conformsB] at hc
        obtain ⟨b, hb, hbd⟩ := ih reg hwf inner (.variant tag payload) hc
        refine ⟨varint 1 ++ b, ?_, ?_⟩
        · simp only [serValue, hb]
          rfl
        · intro r
          simp only [desValue, List.append_assoc, devarint_varint]
          exact hbd r

/-!
## Claim theorems
-/

deriving instance DecidableEq for Except

/-- C1 counterexample: the generated dispatch `switch (type)` has no
`default` branch (ser.rs lines 166-180), so `serialize("DoesNotExist", {})`
over a registry that does not register that name returns the freshly
constructed serializer's `finish()` — the empty byte sequence — instead of
failing with `UnknownType`. -/
theorem serialize_unknown_type_counterexample :
    serializeSem true [⟨"Pair", .Struct [⟨"a", .number 1 false⟩]⟩] 3
      (.str "DoesNotExist") (.obj []) = .ok [] := by
  decide

/-- C1 (amended): for every string dispatch key that names no registered
container, the generated `serialize` returns successfully with the empty
byte sequence (the switch falls through and `s.finish()` is returned),
rather than failing with `UnknownType`. -/
theorem serialize_unknown_type_returns_empty (typeChecks : Bool) (reg : Registry)
    (fuel : Nat) (name : String) (value : JsValue)
    (h : findContainer reg name = none) :
    serializeSem typeChecks reg fuel (.str name) value = .ok [] := by
  simp [serializeSem, h]

/-- C1 witness: a concrete registry without the requested name. -/
theorem serialize_unknown_type_returns_empty_witness :
    serializeSem false [⟨"Pair", .Struct [⟨"a", .number 1 false⟩]⟩] 3
      (.str "Missing") (.arr []) = .ok [] :=
  serialize_unknown_type_returns_empty false
    [⟨"Pair", .Struct [⟨"a", .number 1 false⟩]⟩] 3 "Missing" (.arr [])
    (by decide)

/-- C2 counterexample: with shape-validation generation disabled, a
registered container and a conforming value, the generated dispatch does
not skip the validator and encode — the emitted case still calls
`is_UNIT(value)` (ser.rs line 190) although `generate_js` emitted no
validator definitions (mod.rs line 30), so the call fails instead of
returning the encoded bytes (here `ok []`, a unit struct's encoding). -/
theorem validator_flag_counterexample :
    serializeSem false [⟨"Unit", .UnitStruct⟩] 3 (.str "Unit") (.obj [])
        = .error .validatorUndefined ∧
      serializeSem false [⟨"Unit", .UnitStruct⟩] 3 (.str "Unit") (.obj [])
        ≠ .ok [] := by
  constructor
  · decide
  · decide

/-- C2 (amended): the generated dispatch case invokes the shape validator
unconditionally; the configuration option controls only whether the
validator definitions are emitted.  With the option enabled, a
non-conforming value makes `serialize` fail (`ShapeMismatch`) and a
conforming value is encoded and its bytes returned; with the option
disabled, the dispatch case references an undefined validator, so
`serialize` fails for every registered name instead of encoding without
validation. -/
theorem validator_always_consulted (reg : Registry) (fuel : Nat) (name : String)
    (value : JsValue) (c : Container) (hfc : findContainer reg name = some c) :
    (serializeSem false reg fuel (.str name) value = .error .validatorUndefined) ∧
    (conformsShapeWith (fun t x => conformsB fuel reg t x) c.shape value = false →
      serializeSem true reg fuel (.str name) value = .error .ShapeMismatch) ∧
    (∀ bs, conformsShapeWith (fun t x => conformsB fuel reg t x) c.shape value = true →
      serShapeWith (fun t x => serValue fuel reg t x) c.shape value = some bs →
      serializeSem true reg fuel (.str name) value = .ok bs) := by
  refine ⟨?_, ?_, ?_⟩
  · simp [serializeSem, hfc]
  · intro hcf
    simp [serializeSem, hfc, hcf]
  · intro bs hcf hser
    simp [serializeSem, hfc, hcf, hser]

/-- C2 witness: a one-container registry exercising all three clauses. -/
theorem validator_always_consulted_witness :
    (serializeSem false [⟨"Unit", .UnitStruct⟩] 3 (.str "Unit") (.obj [])
        = .error .validatorUndefined) ∧
    (serializeSem true [⟨"Unit", .UnitStruct⟩] 3 (.str "Unit") (.num 0)
        = .error .ShapeMismatch) ∧
    (serializeSem true [⟨"Unit", .UnitStruct⟩] 3 (.str "Unit") (.obj [])
        = .ok []) := by
  have h := validator_always_consulted [⟨"Unit", .UnitStruct⟩] 3 "Unit" (.obj [])
    ⟨"Unit", .UnitStruct⟩ (by decide)
  have h' := validator_always_consulted [⟨"Unit", .UnitStruct⟩] 3 "Unit" (.num 0)
    ⟨"Unit", .UnitStruct⟩ (by decide)
  exact ⟨h.1, h'.2.1 (by decide), h.2.2 [] (by decide) (by decide)⟩

/-- C3: over a well-formed registry (declared field-name lists
duplicate-free, as produced by host-language structs), for every registered
container and every value conforming to that container's declared shape,
the bytes `serialize` returns decode back to the original value:
`deserialize(name, serialize(name, value)) == value` (with shape validation
enabled, so that `serialize` passes its own emitted validator). -/
theorem serialize_deserialize_round_trip (reg : Registry) (fuel : Nat)
    (name : String) (c : Container) (v : JsValue)
    (hwf : wfReg reg = true) (hfc : findContainer reg name = some c)
    (hc : conformsShapeWith (fun t x => conformsB fuel reg t x) c.shape v = true) :
    ∃ bs, serializeSem true reg fuel (.str name) v = .ok bs ∧
      deserializeSem reg fuel name bs = .ok v := by
  have hwfc := wfShape_of_findContainer reg hwf name c hfc
  obtain ⟨bs, hbs, hbd⟩ :=
    shape_round (fun t x => conformsB fuel reg t x)
      (fun t x => serValue fuel reg t x)
      (fun t bs => desValue fuel reg t bs)
      (fun t x hx => ser_des_round fuel reg hwf t x hx) c.shape v hwfc hc
  refine ⟨bs, ?_, ?_⟩
  · simp [serializeSem, hfc, hc, hbs]
  · have hdec := hbd []
    rw [List.append_nil] at hdec
    simp [deserializeSem, hfc, hdec]

/-- C3 witness: the spec's own scenario — `Pair = Struct{a: u8, b: u16}`
with value `{a: 5, b: 300}` round-trips through the dispatch functions. -/
theorem serialize_deserialize_round_trip_witness :
    ∃ bs,
      serializeSem true [⟨"Pair", .Struct [⟨"a", .number 1 false⟩, ⟨"b", .number 2 false⟩]⟩]
        3 (.str "Pair") (.obj [("a", .num 5), ("b", .num 300)]) = .ok bs ∧
      deserializeSem [⟨"Pair", .Struct [⟨"a", .number 1 false⟩, ⟨"b", .number 2 false⟩]⟩]
        3 "Pair" bs = .ok (.obj [("a", .num 5), ("b", .num 300)]) :=
  serialize_deserialize_round_trip
    [⟨"Pair", .Struct [⟨"a", .number 1 false⟩, ⟨"b", .number 2 false⟩]⟩] 3 "Pair"
    ⟨"Pair", .Struct [⟨"a", .number 1 false⟩, ⟨"b", .number 2 false⟩]⟩
    (.obj [("a", .num 5), ("b", .num 300)])
    (by decide) (by decide) (by decide)

/-- Every registration call appends one variant carrying the pre-push length
as its index (registry.rs lines 37-59). -/
theorem applyEnumOp_eq (init : List EnumVariant) (op : EnumOp) :
    ∃ x : EnumVariant, applyEnumOp init op = init ++ [x] ∧ x.index = init.length := by
  cases op with
  | registerVariant name => exact ⟨_, rfl, rfl⟩
  | registerVariantTuple name fields => exact ⟨_, rfl, rfl⟩
  | registerUnnamedStruct name fields => exact ⟨_, rfl, rfl⟩

/-- The position-equals-index invariant is preserved by any sequence of
registration calls. -/
theorem foldl_index_aux :
    ∀ (ops : List EnumOp) (init : List EnumVariant),
      (∀ i var, init.get? i = some var → var.index = i) →
      ∀ i var, (ops.foldl applyEnumOp init).get? i = some var → var.index = i := by
  intro ops
  induction ops with
  | nil => exact fun init h => h
  | cons op rest ih =>
    intro init hinit
    apply ih
    intro j var hj
    obtain ⟨x, hx, hxi⟩ := applyEnumOp_eq init op
    rw [hx] at hj
    rcases Nat.lt_or_ge j init.length with hlt | hge
    · rw [List.get?_append hlt] at hj
      exact hinit j var hj
    · rw [List.get?_append_right hge] at hj
      cases hje : j - init.length with
      | zero =>
        rw [hje] at hj
        simp only [List.get?] at hj
        cases hj
        omega
      | succ k =>
        rw [hje] at hj
        simp [List.get?] at hj

/-- C4: for every enum and every value whose tag selects a variant, the
generated per-enum serializer writes the variant's index as an unsigned
varint first, then the payload: nothing for an `Empty` variant, the
positional field encodings for a `Tuple` variant, and the field encodings
in declared field order with the names dropped for a `NewType`
(named-fields) variant (`gen_case_for_variant`, ser.rs lines 272-285; the
written index is the variant's position, which registration keeps equal to
its stored `index`). -/
theorem enum_variant_encoding (sv : JsType → JsValue → Option (List Nat))
    (variants : List EnumVariant) (tag : String) (payload : Option JsValue)
    (i : Nat) (var : EnumVariant)
    (hfv : findVariant variants tag = some (i, var)) (hidx : var.index = i) :
    (var.inner_type = .Empty →
      serShapeWith sv (.Enum variants) (.variant tag payload)
        = some (varint var.index)) ∧
    (∀ fts items chunks, var.inner_type = .Tuple fts →
      payload = some (.arr items) → fts.length ≤ items.length →
      serList (fun q => sv q.1 q.2) (fts.zip items) = some chunks →
      serShapeWith sv (.Enum variants) (.variant tag payload)
        = some (varint var.index ++ chunks.flatten)) ∧
    (∀ fls entries chunks, var.inner_type = .NewType fls →
      payload = some (.obj entries) →
      serList (fun fl => sv fl.v_type (getFieldV (.obj entries) fl.name)) fls
        = some chunks →
      serShapeWith sv (.Enum variants) (.variant tag payload)
        = some (varint var.index ++ chunks.flatten)) := by
  subst hidx
  refine ⟨?_, ?_, ?_⟩
  · intro hit
    simp only [serShapeWith, getTagV, hfv, serVariantCaseWith, hit]
  · intro fts items chunks hit hp hlen hs
    subst hp
    simp only [serShapeWith, getTagV, hfv, serVariantCaseWith, hit, getValueV]
    have hbridge := serList_enumFrom sv fts items 0 (by omega)
    simp only [List.drop_zero] at hbridge
    unfold serTupleFieldsWith
    rw [show fts.enum = List.enumFrom 0 fts from rfl, hbridge, hs]
    rfl
  · intro fls entries chunks hit hp hs
    subst hp
    simp only [serShapeWith, getTagV, hfv, serVariantCaseWith, hit, getValueV,
      serStructFieldsWith, hs]
    rfl

/-- C4 witness: the spec's `Choice = Enum{A(Empty), B(Tuple[u8])}` scenario —
encoding `B(7)` yields `[0x01, 0x07]`, and encoding `A` yields `[0x00]`. -/
theorem enum_variant_encoding_witness :
    serShapeWith (fun t x => serValue 1 [] t x)
      (.Enum [⟨0, "A", .Empty⟩, ⟨1, "B", .Tuple [.number 1 false]⟩])
      (.variant "B" (some (.arr [.num 7]))) = some [1, 7] ∧
    serShapeWith (fun t x => serValue 1 [] t x)
      (.Enum [⟨0, "A", .Empty⟩, ⟨1, "B", .Tuple [.number 1 false]⟩])
      (.variant "A" none) = some [0] := by
  constructor
  · have h := (enum_variant_encoding (fun t x => serValue 1 [] t x)
      [⟨0, "A", .Empty⟩, ⟨1, "B", .Tuple [.number 1 false]⟩] "B"
      (some (.arr [.num 7])) 1 ⟨1, "B", .Tuple [.number 1 false]⟩
      (by decide) rfl).2.1
      [.number 1 false] [.num 7] [[7]] rfl rfl (by decide) (by decide)
    rw [h]
    decide
  · have h := (enum_variant_encoding (fun t x => serValue 1 [] t x)
      [⟨0, "A", .Empty⟩, ⟨1, "B", .Tuple [.number 1 false]⟩] "A"
      none 0 ⟨0, "A", .Empty⟩ (by decide) rfl).1 rfl
    rw [h]
    decide

/-- C5: after any sequence of variant registrations starting from
`EnumType::new()`, the variant stored at position `N` carries index `N`
(indices are contiguous from 0), and the generated per-enum serializer
writes exactly that position — hence that index — as the leading varint of
any value whose tag selects a variant. -/
theorem variant_index_is_registration_order (ops : List EnumOp) :
    (∀ i var, (applyEnumOps ops).get? i = some var → var.index = i) ∧
    (∀ (sv : JsType → JsValue → Option (List Nat)) (tag : String)
        (payload : Option JsValue) (i : Nat) (var : EnumVariant) (enc : List Nat),
      findVariant (applyEnumOps ops) tag = some (i, var) →
      serShapeWith sv (.Enum (applyEnumOps ops)) (.variant tag payload) = some enc →
      var.index = i ∧ ∃ tail2, enc = varint i ++ tail2) := by
  have h1 : ∀ i var, (applyEnumOps ops).get? i = some var → var.index = i := by
    apply foldl_index_aux ops []
    intro i var h
    simp [List.get?] at h
  refine ⟨h1, ?_⟩
  intro sv tag payload i var enc hfv hser
  obtain ⟨hname, hget⟩ := findVariant_spec _ tag i var hfv
  have hidx := h1 i var hget
  refine ⟨hidx, ?_⟩
  simp only [serShapeWith, getTagV, hfv] at hser
  cases hit : var.inner_type with
  | Empty =>
    simp only [serVariantCaseWith, hit] at hser
    injection hser with h'
    exact ⟨[], by rw [← h', List.append_nil]⟩
  | Tuple fts =>
    simp only [serVariantCaseWith, hit] at hser
    cases hst : serTupleFieldsWith sv fts (getValueV (.variant tag payload)) with
    | none => rw [hst] at hser; simp at hser
    | some tb =>
      rw [hst] at hser
      have h' : some (varint i ++ tb) = some enc := hser
      injection h' with h''
      exact ⟨tb, h''.symm⟩
  | NewType fls =>
    simp only [serVariantCaseWith, hit] at hser
    cases hst : serStructFieldsWith sv fls (getValueV (.variant tag payload)) with
    | none => rw [hst] at hser; simp at hser
    | some sb =>
      rw [hst] at hser
      have h' : some (varint i ++ sb) = some enc := hser
      injection h' with h''
      exact ⟨sb, h''.symm⟩

/-- C5 witness: registering `A` then `B(u8)` stores indices 0 and 1, and a
`B`-tagged value's encoding starts with the varint for 1. -/
theorem variant_index_is_registration_order_witness :
    (∃ var, (applyEnumOps [.registerVariant "A",
        .registerVariantTuple "B" [.number 1 false]]).get? 1 = some var ∧
      var.index = 1) ∧
    (∃ tail2, ([1, 7] : List Nat) = varint 1 ++ tail2) := by
  have h := variant_index_is_registration_order
    [.registerVariant "A", .registerVariantTuple "B" [.number 1 false]]
  constructor
  · exact ⟨⟨1, "B", .Tuple [.number 1 false]⟩, by decide,
      h.1 1 ⟨1, "B", .Tuple [.number 1 false]⟩ (by decide)⟩
  · exact (h.2 (fun t x => serValue 1 [] t x) "B" (some (.arr [.num 7])) 1
      ⟨1, "B", .Tuple [.number 1 false]⟩ [1, 7] (by decide) (by decide)).2

/-- C6: at every `Optional`-typed position, an absent value (`undefined`)
encodes to exactly the presence-flag encoding of 0 with nothing following,
and a present value encodes the flag 1 followed immediately by the inner
value's encoding (`gen_accessor_optional`, ser.rs lines 77-84). -/
theorem optional_presence_flag (fuel : Nat) (reg : Registry) (inner : JsType)
    (v : JsValue) (hv : v ≠ .undefined) :
    serValue (fuel + 1) reg (.optional inner) .undefined = some (varint 0) ∧
    serValue (fuel + 1) reg (.optional inner) v
      = (serValue fuel reg inner v).map (fun b => varint 1 ++ b) := by
  constructor
  · rfl
  · cases v with
    | undefined => exact absurd rfl hv
    | num n => rfl
    | str bytes => rfl
    | arr items => rfl
    | obj entries => rfl
    | variant tag payload => rfl

/-- C6 witness: an absent `u8?` is exactly `[0]`; a present `7` is
`[1, 7]`. -/
theorem optional_presence_flag_witness :
    serValue 2 [] (.optional (.number 1 false)) .undefined = some [0] ∧
    serValue 2 [] (.optional (.number 1 false)) (.num 7) = some [1, 7] := by
  have h := optional_presence_flag 1 [] (.number 1 false) (.num 7)
    (fun hx => JsValue.noConfusion hx)
  constructor
  · rw [h.1]
    decide
  · rw [h.2]
    decide

/-- C7: a generated struct encoder writes the declared fields' encodings in
declared order, back-to-back (concatenation, no separators, no tags), each
field fetched by name (`v.<name>`); a generated tuple-struct encoder does
the same with the fields fetched positionally (`v[i]`)
(`gen_accessors_struct` and `gen_accessors_tuple`, ser.rs lines 143-164). -/
theorem struct_tuple_field_order (sv : JsType → JsValue → Option (List Nat)) :
    (∀ (fields : List StructField) (entries : List (String × JsValue))
        (chunks : List (List Nat)),
      serList (fun fl => sv fl.v_type (getFieldV (.obj entries) fl.name)) fields
        = some chunks →
      serShapeWith sv (.Struct fields) (.obj entries) = some chunks.flatten) ∧
    (∀ (fields : List JsType) (items : List JsValue) (chunks : List (List Nat)),
      fields.length ≤ items.length →
      serList (fun q => sv q.1 q.2) (fields.zip items) = some chunks →
      serShapeWith sv (.TupleStruct fields) (.arr items) = some chunks.flatten) := by
  constructor
  · intro fields entries chunks hs
    simp only [serShapeWith, serStructFieldsWith, hs]
    rfl
  · intro fields items chunks hlen hs
    have hbridge := serList_enumFrom sv fields items 0 (by omega)
    simp only [List.drop_zero] at hbridge
    simp only [serShapeWith, serTupleFieldsWith]
    rw [show fields.enum = List.enumFrom 0 fields from rfl, hbridge, hs]
    rfl

/-- C7 witness: `Pair{a: u8, b: u16}` at `{a:5, b:300}` is the two fields'
encodings concatenated, `[0x05] ++ [0xAC, 0x02]`; a tuple struct
`(u8, string)` at `(9, "A")` is `[9] ++ [1, 65]`. -/
theorem struct_tuple_field_order_witness :
    serShapeWith (fun t x => serValue 1 [] t x)
      (.Struct [⟨"a", .number 1 false⟩, ⟨"b", .number 2 false⟩])
      (.obj [("a", .num 5), ("b", .num 300)]) = some [5, 172, 2] ∧
    serShapeWith (fun t x => serValue 1 [] t x)
      (.TupleStruct [.number 1 false, .string])
      (.arr [.num 9, .str [65]]) = some [9, 1, 65] := by
  constructor
  · have h := (struct_tuple_field_order (fun t x => serValue 1 [] t x)).1
      [⟨"a", .number 1 false⟩, ⟨"b", .number 2 false⟩]
      [("a", .num 5), ("b", .num 300)] [[5], [172, 2]] (by decide)
    rw [h]
    decide
  · have h := (struct_tuple_field_order (fun t x => serValue 1 [] t x)).2
      [.number 1 false, .string] [.num 9, .str [65]] [[9], [1, 65]]
      (by decide) (by decide)
    rw [h]
    decide

/-- C8: one deterministic case-transform (`to_obj_identifier`) is applied at
every site that turns a container name into a code identifier — the
dispatch case's serialize call and validator call (ser_des/ser.rs
line 190), the per-container serialize definitions (lines 201, 217, 242),
the object-reference call site (line 139), and the validator definition —
so every generated reference resolves to the same symbol as its
definition. -/
theorem identifier_single_transform (name : String) :
    dispatchSerializeIdent name = structSerializeDefIdent name ∧
    dispatchSerializeIdent name = tupleStructSerializeDefIdent name ∧
    dispatchSerializeIdent name = enumSerializeDefIdent name ∧
    objectAccessorCallIdent name = structSerializeDefIdent name ∧
    dispatchValidatorIdent name = validatorDefIdent name :=
  ⟨rfl, rfl, rfl, rfl, rfl⟩

/-- C9: the generated `serialize` fails with `MalformedTypeKey` for every
input whose first argument is not a string, before any encoding is
attempted — the `typeof` guard precedes the serializer construction and the
dispatch switch (`gen_serialize_func`, ser.rs lines 169-172). -/
theorem serialize_rejects_non_string_key (typeChecks : Bool) (reg : Registry)
    (fuel : Nat) (value : JsValue) :
    serializeSem typeChecks reg fuel .notAString value = .error .MalformedTypeKey :=
  rfl

/-- C10: the per-enum serializer's `switch (v.tag)` has no `default` branch
(`enum_ty::gen_function`, ser.rs lines 241-254), so a value whose tag
matches no registered variant name writes no bytes and the function returns
normally instead of failing. -/
theorem enum_unknown_tag_writes_nothing (sv : JsType → JsValue → Option (List Nat))
    (variants : List EnumVariant) (tag : String) (payload : Option JsValue)
    (h : findVariant variants tag = none) :
    serShapeWith sv (.Enum variants) (.variant tag payload) = some [] := by
  simp only [serShapeWith, getTagV, h]

/-- C10 witness: a tag matching no variant of the `Choice` enum. -/
theorem enum_unknown_tag_writes_nothing_witness :
    serShapeWith (fun t x => serValue 1 [] t x)
      (.Enum [⟨0, "A", .Empty⟩, ⟨1, "B", .Tuple [.number 1 false]⟩])
      (.variant "C" none) = some [] :=
  enum_unknown_tag_writes_nothing (fun t x => serValue 1 [] t x)
    [⟨0, "A", .Empty⟩, ⟨1, "B", .Tuple [.number 1 false]⟩] "C" none (by decide)
